import Mathlib

/-!
Verification development for the chunk-analysis repository.

The repository is a Go program that walks EVM execution traces and records,
per contract, which bytecode offsets were accessed.  The internal package
contains several iterations of the same components; the definitions below
embed the iterations that the claims reference:

* `BitSet`    — the bit accessor of src/unnamed/part_002 (word width 31,
                `chunkSize = 31`, popcount-based `Count`/`IsFull`).
* `BitSetC`   — the bit accessor of src/unnamed/part_001, second file
                (word width 32, cached `setCount`, `IsFull` compares the
                cached counter against `size`; `Merge` does not update the
                cached counter).
* `A1`        — the first analyzer iteration of src/internal/analyzer.go
                (lines 123-221): opcode dispatch by exact string constants,
                separate code-size/copy/hash counters.
* `A3`        — the third analyzer iteration (lines 827-932): merged
                `CodeOpsCount`, dispatch by opcode length, `handleCallOps`
                factored out; no lookahead before recursing into a call.
* `A2`        — `analyzeSteps2` of the second analyzer iteration
                (lines 530-682): lookahead-based frame detection via the
                previous step's depth.
* `Resolver`  — the cached `getCode` of the second/third iterations
                (lines 403-425 / 804-825) over an LRU cache.
* `Retry`     — `calculateDelay` of src/internal/rpcclient.go (179-196).
* `Agg`       — the block aggregation of `Analyze`, second iteration
                (lines 305-368).

Go panics (array index out of range, nil-pointer dereference, explicit
`panic` calls in `NewBitSet`/`Set`/`Merge`) are modelled as `Option`/`Except`
error values with dedicated constructors, so theorems can distinguish a
panic from an ordinary returned error.  Machine integers are modelled as
`Nat`; all arithmetic the code performs stays far below 2^32 / 2^64 for the
inputs considered, with the bit-level operations (`|||`, `<<<`, `testBit`)
mirrored exactly.  Floating point arithmetic in `calculateDelay` is
modelled over `ℚ`; `rand.Float64()` becomes an explicit parameter in [0,1).
-/

/-- The bytecode size cap, `maxContractBytes` in the Go sources. -/
def maxContractBytes : Nat := 24576

/-- Number of set bits among the low 32 bits of a word; `bits.OnesCount32`
in Go.  Words in both bit-set embeddings are always below 2^32, where this
agrees with the full popcount. -/
def onesCount32 (w : Nat) : Nat := (List.range 32).countP (fun i => w.testBit i)

/-- The bit accessor of src/unnamed/part_002: one bit per code byte, words
of width `chunkSize = 31`. -/
structure BitSet where
  bits : List Nat
  size : Nat
deriving DecidableEq, Repr

namespace BitSet

/-- `chunkSize` of src/unnamed/part_002. -/
def chunkSize : Nat := 31

/-- `NewBitSet` (part_002 lines 24-37); `none` models the panic on a zero
or over-sized argument. -/
def NewBitSet (size : Nat) : Option BitSet :=
  if size = 0 then none
  else if size > maxContractBytes then none
  else some { bits := List.replicate ((size + chunkSize - 1) / chunkSize) 0, size := size }

/-- The unexported `set` helper (part_002 lines 55-71): no bounds check,
word `index / chunkSize`, bit `index % chunkSize`. -/
def setRaw (b : BitSet) (index : Nat) : BitSet :=
  let wordIndex := index / chunkSize
  let bitIndex := index % chunkSize
  let mask := 1 <<< bitIndex
  { b with bits := b.bits.set wordIndex ((b.bits.getD wordIndex 0) ||| mask) }

/-- `Set` (part_002 lines 39-45); `none` models the out-of-range panic. -/
def Set (b : BitSet) (index : Nat) : Option BitSet :=
  if index ≥ b.size then none else some (b.setRaw index)

/-- `SetWithCheck` (part_002 lines 47-53): the checked variant returns an
error instead of panicking. -/
def SetWithCheck (b : BitSet) (index : Nat) : Except String BitSet :=
  if index ≥ b.size then .error "index out of range" else .ok (b.setRaw index)

/-- `Count` (part_002 lines 74-84): total popcount over the words. -/
def Count (b : BitSet) : Nat := (b.bits.map onesCount32).sum

/-- `ChunkCount` (part_002 lines 92-104): the number of nonzero words. -/
def ChunkCount (b : BitSet) : Nat := b.bits.countP (fun w => w != 0)

/-- `ChunkProportion` (part_002 lines 125-127), float division modelled
over ℚ: `ChunkCount` over the number of words. -/
def ChunkProportion (b : BitSet) : ℚ := (b.ChunkCount : ℚ) / (b.bits.length : ℚ)

/-- `Merge` (part_002 lines 129-139): `none` models the size-mismatch panic
and the index panic that a too-short right operand would cause in the Go
loop `b.bits[i] |= other.bits[i]`. -/
def Merge (b other : BitSet) : Option BitSet :=
  if b.size ≠ other.size then none
  else if other.bits.length < b.bits.length then none
  else some { bits := List.zipWith (fun x y => x ||| y) b.bits other.bits, size := b.size }

/-- `IsFull` (part_002 lines 141-143). -/
def IsFull (b : BitSet) : Bool := b.Count == b.size

/-- `Size` (part_002 lines 145-147). -/
def Size (b : BitSet) : Nat := b.size

/-- Whether bit `i` of the accessor is set, reading the word layout used by
`setRaw`: word `i / chunkSize`, bit `i % chunkSize`. -/
def testIdx (b : BitSet) (i : Nat) : Bool := (b.bits.getD (i / chunkSize) 0).testBit (i % chunkSize)

/-- The structural invariant every accessor produced by `NewBitSet` and
maintained by `Set`/`SetWithCheck`/`Merge` satisfies: word-list length as
allocated, size within bounds, every word below 2^31. -/
def Wf (b : BitSet) : Prop :=
  b.bits.length = (b.size + chunkSize - 1) / chunkSize ∧
  0 < b.size ∧ b.size ≤ maxContractBytes ∧
  ∀ w ∈ b.bits, w < 2 ^ 31

instance (b : BitSet) : Decidable b.Wf := by
  unfold Wf; infer_instance

/-- No bit at an index at or beyond `size` is set. -/
def InBounds (b : BitSet) : Prop := ∀ i, b.testIdx i = true → i < b.size

end BitSet

/-- The bit accessor of src/unnamed/part_001 (second embedded file, lines
51-168): word width 32 and a cached `setCount` that `Set` maintains but
`Merge` does not. -/
structure BitSetC where
  bits : List Nat
  size : Nat
  setCount : Nat
deriving DecidableEq, Repr

namespace BitSetC

/-- `NewBitSet` (part_001 lines 69-82). -/
def NewBitSet (size : Nat) : Option BitSetC :=
  if size = 0 then none
  else if size > maxContractBytes then none
  else some { bits := List.replicate ((size + 31) / 32) 0, size := size, setCount := 0 }

/-- `Set` (part_001 lines 84-100): bumps `setCount` when the bit was not
already set; `none` models the out-of-range panic. -/
def Set (b : BitSetC) (index : Nat) : Option BitSetC :=
  if index ≥ b.size then none
  else
    let wordIndex := index / 32
    let bitIndex := index % 32
    let mask := 1 <<< bitIndex
    let old := b.bits.getD wordIndex 0
    let setCount := if old &&& mask == 0 then b.setCount + 1 else b.setCount
    some { bits := b.bits.set wordIndex (old ||| mask), size := b.size, setCount := setCount }

/-- `Count` (part_001 lines 121-131): returns the cached counter when it is
nonzero, otherwise recounts by popcount. -/
def Count (b : BitSetC) : Nat :=
  if b.setCount ≠ 0 then b.setCount else (b.bits.map onesCount32).sum

/-- `Merge` (part_001 lines 154-164): bitwise union of the words, leaving
`setCount` untouched; `none` models the panics as in `BitSet.Merge`. -/
def Merge (b other : BitSetC) : Option BitSetC :=
  if b.size ≠ other.size then none
  else if other.bits.length < b.bits.length then none
  else some { bits := List.zipWith (fun x y => x ||| y) b.bits other.bits,
              size := b.size, setCount := b.setCount }

/-- `IsFull` (part_001 lines 166-168): compares the cached counter, not a
recount, against `size`. -/
def IsFull (b : BitSetC) : Bool := b.setCount == b.size

end BitSetC

/-! ## Shared trace data model (src/internal/rpcclient.go lines 58-79) -/

/-- One step of a transaction trace (`TraceStep`). -/
structure TraceStep where
  pc : Nat
  op : String
  depth : Nat
  stack : List String
deriving DecidableEq, Repr, Inhabited

/-- A resolved contract (`Code`): address plus bytecode bytes. -/
structure Code where
  addr : String
  code : List Nat
deriving DecidableEq, Repr

/-- Error outcomes of a walk.  Constructors model both ordinary Go errors
and Go runtime panics (index out of range, nil-pointer dereference,
`panic` calls inside the bit-set), kept distinct so theorems can tell which
failure the code hits. -/
inductive WErr where
  | outOfFuel
  | indexOutOfRange
  | nilPointer
  | newBitSetPanic
  | setPanic (index size : Nat)
  | setOutOfRange (index size : Nat)
  | depthMismatch (counter expected got : Nat)
  | codeResolution
  | atoiError
  | mergePanic
  | hexDecodeError
deriving DecidableEq, Repr

/-- A source of resolved code for the walkers: the cached `getCode` seen as
a function of the address (the block number is fixed for one walk).
`Except.error` is a resolution failure, for which the Go `getCode` returns
a nil `*Code` pointer alongside the error. -/
def CodeOracle := String → Except Unit Code

/-- `stack[len(stack)-1]` (top of stack); error models the index panic on
an empty stack. -/
def stackTop (stack : List String) : Except WErr String :=
  match stack.getLast? with
  | some s => .ok s
  | none => .error .indexOutOfRange

/-- `stack[len(stack)-2]` (second from top); error models the index panic
when fewer than two entries exist. -/
def stackSecond (stack : List String) : Except WErr String :=
  if stack.length ≥ 2 then .ok (stack.getD (stack.length - 2) "") else .error .indexOutOfRange

/-- Byte `k` of an opcode mnemonic (`op[k]` in Go); all uses are guarded by
length tests that mirror the Go guards. -/
def opChar (op : String) (k : Nat) : Char := op.toList.getD k 'X'

/-- One decimal digit. -/
def digit? (c : Char) : Option Nat :=
  if '0' ≤ c ∧ c ≤ '9' then some (c.toNat - 48) else none

/-- The accumulating loop of `atoi`. -/
def atoiLoop : List Char → Nat → Option Nat
  | [], acc => some acc
  | c :: rest, acc =>
    match digit? c with
    | some d => atoiLoop rest (acc * 10 + d)
    | none => none

/-- `strconv.Atoi` restricted to unsigned decimal strings, which is all
the PUSH mnemonic suffixes ever are: empty or non-digit input is an
error. -/
def atoi (s : String) : Option Nat :=
  match s.toList with
  | [] => none
  | c :: rest => atoiLoop (c :: rest) 0

/-- The loop of the checked `handlePush` variants: `SetWithCheck` on
`start, start+1, ...` for the given count, stopping at the first failure. -/
def pushLoopChecked (bits : BitSet) (start : Nat) : Nat → Except WErr BitSet
  | 0 => .ok bits
  | n+1 =>
    match bits.SetWithCheck start with
    | .error _ => .error (.setOutOfRange start bits.size)
    | .ok b2 => pushLoopChecked b2 (start + 1) n

/-- The loop of the unchecked `handlePush` variant (second iteration,
analyzer.go lines 670-682), which calls the panicking `Set`. -/
def pushLoopPanic (bits : BitSet) (start : Nat) : Nat → Except WErr BitSet
  | 0 => .ok bits
  | n+1 =>
    match bits.Set start with
    | none => .error (.setPanic start bits.size)
    | some b2 => pushLoopPanic b2 (start + 1) n

namespace A3

/-! Third analyzer iteration, src/internal/analyzer.go lines 687-932.  The
claims cite its `analyzeSteps` (827-896), `handleCallOps` (898-911) and
`handlePush` (914-928). -/

/-- `TraceResult` of this iteration (lines 725-734). -/
structure TraceResult where
  blockNum : Nat
  addr : String
  bits : BitSet
  codeOpsCount : Nat
deriving DecidableEq, Repr

/-- `newTraceResult` (lines 741-747); `none` models the `NewBitSet` panic. -/
def newTraceResult (code : Code) (blockNum : Nat) : Option TraceResult :=
  (BitSet.NewBitSet code.code.length).map fun b =>
    { blockNum := blockNum, addr := code.addr, bits := b, codeOpsCount := 0 }

/-- `handlePush` (lines 914-928): parse the numeric suffix of the PUSH
mnemonic (`strconv.Atoi`), then mark the following bytes with
`SetWithCheck`. -/
def handlePush (bits : BitSet) (step : TraceStep) : Except WErr BitSet :=
  match atoi (step.op.drop 4) with
  | none => .error .atoiError
  | some n => pushLoopChecked bits (step.pc + 1) n

/-- The call-opcode dispatch of the switch (cases at lines 873-888):
CALL, STATICCALL, DELEGATECALL, CALLCODE, recognized by length and one
byte, exactly as in the Go switch. -/
def isCallOp (op : String) : Bool :=
  (op.length == 4 && opChar op 3 == 'L') ||
  (op.length == 10 && opChar op 9 == 'L') ||
  (op.length == 12 && opChar op 0 == 'D') ||
  (op.length == 8 && opChar op 2 == 'L')

/-- The loop of `analyzeSteps` (lines 840-895).  `handleCallOps`
(lines 898-911) and the frame entry of the recursive `analyzeSteps` call
(lines 828-839) are inlined at the call-opcode case; the walk there mirrors
the Go flow: resolve `stack[len-2]`, tolerate the error only when the
trace is failed (after which Go dereferences the nil `*Code`, modelled by
`.nilPointer`), and on non-empty code advance the counter and enter the new
frame with `depth+1`, a fresh `TraceResult`, and the depth sanity check.

Returns the final counter together with every `TraceResult` sent to the
results channel, in emission order.  `fuel` bounds the recursion; the
wrapper supplies more than the walk can consume. -/
def walkLoop (ora : CodeOracle) (failed : Bool) (bn : Nat) (steps : List TraceStep) :
    Nat → Nat → Nat → TraceResult → List TraceResult → Except WErr (Nat × List TraceResult)
  | 0, _, _, _, _ => .error .outOfFuel
  | fuel+1, depth, counter, result, acc =>
    if counter < steps.length then
      let step := steps.getD counter default
      if step.depth = depth - 1 then
        .ok (counter, acc ++ [result])
      else
        match result.bits.Set step.pc with
        | none => .error (.setPanic step.pc result.bits.size)
        | some bits1 =>
          let result1 := { result with bits := bits1 }
          let op := step.op
          if op = "PUSH0" then
            walkLoop ora failed bn steps fuel depth (counter + 1) result1 acc
          else if op.length > 4 ∧ op.take 2 = "PU" then
            match handlePush result1.bits step with
            | .error e => .error e
            | .ok b2 => walkLoop ora failed bn steps fuel depth (counter + 1) { result1 with bits := b2 } acc
          else if op.length > 4 ∧ op.take 3 = "COD" then
            walkLoop ora failed bn steps fuel depth (counter + 1)
              { result1 with codeOpsCount := result1.codeOpsCount + 1 } acc
          else if op.length = 11 ∧ opChar op 0 = 'E' then
            match stackTop step.stack with
            | .error e => .error e
            | .ok sa =>
              match ora sa with
              | .error _ => if ¬failed then .error .codeResolution else .error .nilPointer
              | .ok c =>
                if c.code.length ≠ 0 then
                  match newTraceResult c bn with
                  | none => .error .newBitSetPanic
                  | some extRes =>
                    walkLoop ora failed bn steps fuel depth (counter + 1) result1
                      (acc ++ [{ extRes with codeOpsCount := extRes.codeOpsCount + 1 }])
                else
                  walkLoop ora failed bn steps fuel depth (counter + 1) result1 acc
          else if isCallOp op then
            match stackSecond step.stack with
            | .error e => .error e
            | .ok sa =>
              match ora sa with
              | .error _ => if ¬failed then .error .codeResolution else .error .nilPointer
              | .ok c =>
                if c.code.length ≠ 0 then
                  if counter + 1 < steps.length then
                    let s2 := steps.getD (counter + 1) default
                    if depth + 1 ≠ s2.depth then
                      .error (.depthMismatch (counter + 1) (depth + 1) s2.depth)
                    else
                      match newTraceResult c bn with
                      | none => .error .newBitSetPanic
                      | some r2 =>
                        match walkLoop ora failed bn steps fuel (depth + 1) (counter + 1) r2 acc with
                        | .error e => .error e
                        | .ok (c2, acc2) =>
                          walkLoop ora failed bn steps fuel depth (c2 + 1) result1 acc2
                  else .error .indexOutOfRange
                else
                  walkLoop ora failed bn steps fuel depth (counter + 1) result1 acc
          else
            walkLoop ora failed bn steps fuel depth (counter + 1) result1 acc
    else .ok (counter, acc ++ [result])

/-- `analyzeSteps` (lines 827-896) entered at depth 1, counter 0, as
`analyze` (lines 781-793) does: empty-step early return, depth sanity
check, fresh `TraceResult` for the entry contract, then the loop. -/
def analyzeSteps (ora : CodeOracle) (failed : Bool) (bn : Nat) (code : Code)
    (steps : List TraceStep) : Except WErr (Nat × List TraceResult) :=
  if steps.length = 0 then .ok (0, [])
  else
    let s0 := steps.getD 0 default
    if 1 ≠ s0.depth then .error (.depthMismatch 0 1 s0.depth)
    else
      match newTraceResult code bn with
      | none => .error .newBitSetPanic
      | some r => walkLoop ora failed bn steps (3 * steps.length + 3) 1 0 r []

end A3

namespace A1

/-! First analyzer iteration, src/internal/analyzer.go lines 1-221.  The
claims cite its `analyzeSteps` (123-204, in particular the EXTCODESIZE case
at 143-165) and `handlePush` (207-221). -/

/-- `TraceResult` of this iteration (lines 36-46): separate counters for
size, copy and hash whole-code accesses. -/
structure TraceResult where
  addr : String
  bits : BitSet
  codeSizeCount : Nat
  codeCopyCount : Nat
  codeHashCount : Nat
deriving DecidableEq, Repr

/-- `newTraceResult` (lines 53-58). -/
def newTraceResult (code : Code) : Option TraceResult :=
  (BitSet.NewBitSet code.code.length).map fun b =>
    { addr := code.addr, bits := b, codeSizeCount := 0, codeCopyCount := 0, codeHashCount := 0 }

/-- `handlePush` (lines 207-221): same checked loop as the third
iteration. -/
def handlePush (bits : BitSet) (step : TraceStep) : Except WErr BitSet :=
  match atoi (step.op.drop 4) with
  | none => .error .atoiError
  | some n => pushLoopChecked bits (step.pc + 1) n

/-- The call-opcode case of the switch (line 186). -/
def isCallOp (op : String) : Bool :=
  op == "DELEGATECALL" || op == "CALL" || op == "CALLCODE" || op == "STATICCALL"

/-- The non-call arms of the switch in `analyzeSteps` (lines 145-185),
applied after the unconditional `result.Bits.Set(step.PC)` of line 143
(which the loop performs).  Returns the updated current-frame result and
the extra `TraceResult`s sent to the results channel by this step (the
single-opcode results of the EXTCODE opcodes). -/
def processStep (ora : CodeOracle) (failed : Bool) (step : TraceStep) (result : TraceResult) :
    Except WErr (TraceResult × List TraceResult) :=
  let op := step.op
  if op = "PUSH0" then .ok (result, [])
  else if op.take 4 = "PUSH" then
    match handlePush result.bits step with
    | .error e => .error e
    | .ok b2 => .ok ({ result with bits := b2 }, [])
  else if op = "CODESIZE" then .ok ({ result with codeSizeCount := result.codeSizeCount + 1 }, [])
  else if op = "CODECOPY" then .ok ({ result with codeCopyCount := result.codeCopyCount + 1 }, [])
  else if op = "EXTCODESIZE" then
    match stackTop step.stack with
    | .error e => .error e
    | .ok sa =>
      match ora sa with
      | .error _ => if ¬failed then .error .codeResolution else .error .nilPointer
      | .ok c =>
        if c.code.length ≠ 0 then
          match newTraceResult c with
          | none => .error .newBitSetPanic
          | some er => .ok (result, [{ er with codeSizeCount := er.codeSizeCount + 1 }])
        else .ok (result, [])
  else if op = "EXTCODEHASH" then
    match stackTop step.stack with
    | .error e => .error e
    | .ok sa =>
      match ora sa with
      | .error _ => if ¬failed then .error .codeResolution else .error .nilPointer
      | .ok c =>
        if c.code.length ≠ 0 then
          match newTraceResult c with
          | none => .error .newBitSetPanic
          | some er => .ok (result, [{ er with codeHashCount := er.codeHashCount + 1 }])
        else .ok (result, [])
  else if op = "EXTCODECOPY" then
    match stackTop step.stack with
    | .error e => .error e
    | .ok sa =>
      match ora sa with
      | .error _ => if ¬failed then .error .codeResolution else .error .nilPointer
      | .ok c =>
        if c.code.length ≠ 0 then
          match newTraceResult c with
          | none => .error .newBitSetPanic
          | some er => .ok (result, [{ er with codeCopyCount := er.codeCopyCount + 1 }])
        else .ok (result, [])
  else .ok (result, [])

/-- The loop of `analyzeSteps` (lines 135-200): mark the step's pc, then
either the inlined call handling (lines 186-196, with the frame entry of
the recursive `analyzeSteps` at 123-134) or `processStep` for the other
opcodes.  The call case and the `processStep` cases are disjoint, so
checking the call case first preserves the Go switch semantics. -/
def walkLoop (ora : CodeOracle) (failed : Bool) (steps : List TraceStep) :
    Nat → Nat → Nat → TraceResult → List TraceResult → Except WErr (Nat × List TraceResult)
  | 0, _, _, _, _ => .error .outOfFuel
  | fuel+1, depth, counter, result, acc =>
    if counter < steps.length then
      let step := steps.getD counter default
      if step.depth = depth - 1 then
        .ok (counter, acc ++ [result])
      else
        match result.bits.Set step.pc with
        | none => .error (.setPanic step.pc result.bits.size)
        | some bits1 =>
          let result1 := { result with bits := bits1 }
          if isCallOp step.op then
            match stackSecond step.stack with
            | .error e => .error e
            | .ok sa =>
              match ora sa with
              | .error _ => if ¬failed then .error .codeResolution else .error .nilPointer
              | .ok c =>
                if c.code.length ≠ 0 then
                  if counter + 1 < steps.length then
                    let s2 := steps.getD (counter + 1) default
                    if depth + 1 ≠ s2.depth then
                      .error (.depthMismatch (counter + 1) (depth + 1) s2.depth)
                    else
                      match newTraceResult c with
                      | none => .error .newBitSetPanic
                      | some r2 =>
                        match walkLoop ora failed steps fuel (depth + 1) (counter + 1) r2 acc with
                        | .error e => .error e
                        | .ok (c2, acc2) =>
                          walkLoop ora failed steps fuel depth (c2 + 1) result1 acc2
                  else .error .indexOutOfRange
                else
                  walkLoop ora failed steps fuel depth (counter + 1) result1 acc
          else
            match processStep ora failed step result1 with
            | .error e => .error e
            | .ok (result2, emitted) =>
              walkLoop ora failed steps fuel depth (counter + 1) result2 (acc ++ emitted)
    else .ok (counter, acc ++ [result])

/-- `analyzeSteps` (lines 123-204) entered at depth 1 and counter 0. -/
def analyzeSteps (ora : CodeOracle) (failed : Bool) (code : Code)
    (steps : List TraceStep) : Except WErr (Nat × List TraceResult) :=
  if steps.length = 0 then .ok (0, [])
  else
    let s0 := steps.getD 0 default
    if 1 ≠ s0.depth then .error (.depthMismatch 0 1 s0.depth)
    else
      match newTraceResult code with
      | none => .error .newBitSetPanic
      | some r => walkLoop ora failed steps (3 * steps.length + 3) 1 0 r []

end A1

namespace A2

/-! `analyzeSteps2` of the second analyzer iteration,
src/internal/analyzer.go lines 530-682: frame transitions are detected by
comparing the previous step's depth with the current step's depth
(lookahead), CREATE/CREATE2 sub-frames are skipped via the `isCreate`
flag, and a step whose pc equals the code size is the implicit STOP. -/

/-- `TraceResult` of the second iteration (lines 258-267). -/
structure TraceResult where
  blockNum : Nat
  addr : String
  bits : BitSet
  codeOpsCount : Nat
deriving DecidableEq, Repr

/-- `newTraceResult` (lines 278-284). -/
def newTraceResult (code : Code) (blockNum : Nat) : Option TraceResult :=
  (BitSet.NewBitSet code.code.length).map fun b =>
    { blockNum := blockNum, addr := code.addr, bits := b, codeOpsCount := 0 }

/-- `handlePush` of the second iteration (lines 670-682): uses the
panicking `Set` for the immediate operand bytes. -/
def handlePush (bits : BitSet) (step : TraceStep) : Except WErr BitSet :=
  match atoi (step.op.drop 4) with
  | none => .error .atoiError
  | some n => pushLoopPanic bits (step.pc + 1) n

/-- `handleOps` (lines 622-648): mark the step's pc, then the non-call
opcode switch (PUSH0, PUSH, CODE*, EXTCODE*).  Returns the updated frame
result and the extra results emitted to the channel. -/
def handleOps (ora : CodeOracle) (failed : Bool) (bn : Nat) (step : TraceStep)
    (res : TraceResult) : Except WErr (TraceResult × List TraceResult) :=
  match res.bits.Set step.pc with
  | none => .error (.setPanic step.pc res.bits.size)
  | some b1 =>
    let res1 := { res with bits := b1 }
    let op := step.op
    if op = "PUSH0" then .ok (res1, [])
    else if op.length > 4 ∧ op.take 2 = "PU" then
      match handlePush res1.bits step with
      | .error e => .error e
      | .ok b2 => .ok ({ res1 with bits := b2 }, [])
    else if op.length > 4 ∧ op.take 3 = "COD" then
      .ok ({ res1 with codeOpsCount := res1.codeOpsCount + 1 }, [])
    else if op.length = 11 ∧ opChar op 0 = 'E' then
      match stackTop step.stack with
      | .error e => .error e
      | .ok sa =>
        match ora sa with
        | .error _ => if ¬failed then .error .codeResolution else .error .nilPointer
        | .ok c =>
          if c.code.length ≠ 0 then
            match newTraceResult c bn with
            | none => .error .newBitSetPanic
            | some er => .ok (res1, [{ er with codeOpsCount := er.codeOpsCount + 1 }])
          else .ok (res1, [])
    else .ok (res1, [])

/-- The loop of `analyzeSteps2` (lines 541-616), carrying the loop-local
`prevStep` explicitly.  The recursive `analyzeSteps2` call at line 590 is
inlined: it is re-entered with `index+1 ≤ len(steps)` on a non-empty step
list, so its `prevStep` initialisation reads `steps[index]`, the current
step, which is passed directly.  `tail` is the common fall-through code at
lines 602-615, reached from the previous-depth comparison branches exactly
where Go falls through to it. -/
def walkLoop (ora : CodeOracle) (failed : Bool) (bn : Nat) (steps : List TraceStep) :
    Nat → Nat → TraceResult → Bool → Option TraceStep → List TraceResult →
    Except WErr (Nat × List TraceResult)
  | 0, _, _, _, _, _ => .error .outOfFuel
  | fuel+1, index, res, isCreate, prevStep, acc =>
    if index < steps.length then
      let step := steps.getD index default
      let tail : Nat → TraceStep → List TraceResult → Except WErr (Nat × List TraceResult) :=
        fun index stp acc =>
          if ¬isCreate then
            if stp.pc = res.bits.size then .ok (index + 1, acc ++ [res])
            else
              match handleOps ora failed bn stp res with
              | .error e => .error e
              | .ok (res2, em) => walkLoop ora failed bn steps fuel (index + 1) res2 isCreate (some stp) (acc ++ em)
          else walkLoop ora failed bn steps fuel (index + 1) res isCreate (some stp) acc
      match prevStep with
      | some ps =>
        if ps.depth > step.depth then
          if isCreate then
            if step.pc = res.bits.size then .ok (index + 1, acc ++ [res])
            else
              match handleOps ora failed bn step res with
              | .error e => .error e
              | .ok (res2, em) => walkLoop ora failed bn steps fuel (index + 1) res2 false (some step) (acc ++ em)
          else .ok (index, acc ++ [res])
        else if ps.depth < step.depth then
          if ps.op.length ≥ 6 ∧ ps.op.take 2 = "CR" then
            walkLoop ora failed bn steps fuel (index + 1) res true (some step) acc
          else
            match stackSecond ps.stack with
            | .error e => .error e
            | .ok sa =>
              match ora sa with
              | .error _ => if ¬failed then .error .codeResolution else .error .nilPointer
              | .ok c =>
                if c.code.length ≠ 0 then
                  match newTraceResult c bn with
                  | none => .error .newBitSetPanic
                  | some res2 =>
                    match handleOps ora failed bn step res2 with
                    | .error e => .error e
                    | .ok (res2b, em1) =>
                      match walkLoop ora failed bn steps fuel (index + 1) res2b isCreate (some step) (acc ++ em1) with
                      | .error e => .error e
                      | .ok (newIndex, acc2) =>
                        if newIndex ≠ 0 then
                          if newIndex < steps.length then
                            tail newIndex (steps.getD newIndex default) acc2
                          else .error .indexOutOfRange
                        else tail index step acc2
                else tail index step acc
        else tail index step acc
      | none => tail index step acc
    else .ok (index, acc ++ [res])

/-- `analyzeSteps2` (lines 530-620): empty-step early return, `prevStep`
initialisation from the entry index, then the loop. -/
def analyzeSteps2 (ora : CodeOracle) (failed : Bool) (bn : Nat) (steps : List TraceStep)
    (index : Nat) (res : TraceResult) (isCreate : Bool) : Except WErr (Nat × List TraceResult) :=
  if steps.length = 0 then .ok (0, [])
  else if index > 0 then
    if index - 1 < steps.length then
      walkLoop ora failed bn steps (3 * steps.length + 3) index res isCreate
        (some (steps.getD (index - 1) default)) []
    else .error .indexOutOfRange
  else
    walkLoop ora failed bn steps (3 * steps.length + 3) index res isCreate none []

end A2

namespace Resolver

/-! The cached code resolver: `getCode` of the second/third analyzer
iterations (src/internal/analyzer.go lines 403-425 and 804-825) with
`codeCacheKey` (lines 684-686 / 930-932), over the `hashicorp/golang-lru`
cache created with capacity 100000 (engine, `lru.New(100000)`).  The cache
is modelled as a recency-ordered association list: `Get` promotes a hit to
the front, `Add` inserts at the front and evicts beyond the capacity.  The
RPC transport (`client.Code`) is an oracle returning the hex string of
`eth_getCode`; the count of issued requests is tracked in the state. -/

/-- `codeCacheKey`: the exact (address, block) pair rendered as
`addr:block`. -/
def codeCacheKey (addr : String) (blockNum : Nat) : String :=
  addr ++ ":" ++ toString blockNum

/-- The LRU capacity used for the shared code cache. -/
def lruCapacity : Nat := 100000

/-- `lru.Cache.Get`: a hit returns the value and moves the entry to the
front; a miss leaves the cache unchanged. -/
def lruGet (cache : List (String × Code)) (key : String) :
    Option Code × List (String × Code) :=
  match cache.lookup key with
  | some v => (some v, (key, v) :: cache.filter (fun p => p.1 != key))
  | none => (none, cache)

/-- `lru.Cache.Add`: insert at the front, dropping the least recently used
entries beyond the capacity. -/
def lruAdd (cache : List (String × Code)) (key : String) (v : Code) :
    List (String × Code) :=
  ((key, v) :: cache.filter (fun p => p.1 != key)).take lruCapacity

/-- One hex digit of `hexutil.Decode`. -/
def hexDigit (c : Char) : Option Nat :=
  if '0' ≤ c ∧ c ≤ '9' then some (c.toNat - 48)
  else if 'a' ≤ c ∧ c ≤ 'f' then some (c.toNat - 87)
  else if 'A' ≤ c ∧ c ≤ 'F' then some (c.toNat - 55)
  else none

/-- Hex digit pairs to bytes; `none` on an odd count or a bad digit. -/
def hexPairs : List Char → Option (List Nat)
  | [] => some []
  | [_] => none
  | c1 :: c2 :: rest =>
    match hexDigit c1, hexDigit c2, hexPairs rest with
    | some a, some b, some t => some ((16 * a + b) :: t)
    | _, _, _ => none

/-- `hexutil.Decode`: requires the `0x` prefix, then an even run of hex
digits; `0x` alone decodes to the empty byte string. -/
def hexDecode (s : String) : Except WErr (List Nat) :=
  if s.take 2 = "0x" then
    match hexPairs (s.drop 2).toList with
    | some bs => .ok bs
    | none => .error .hexDecodeError
  else .error .hexDecodeError

/-- The resolver state shared by all walker tasks of a run: the LRU cache
and the number of network requests issued so far. -/
structure CacheState where
  cache : List (String × Code)
  netCalls : Nat
deriving DecidableEq, Repr

/-- The RPC transport for `eth_getCode`: address and block to hex payload. -/
def RpcOracle := String → Nat → Except Unit String

/-- `getCode` (lines 804-825): consult the cache under `codeCacheKey`
before any network call; on a miss fetch the hex payload, decode it, store
the decoded bytes and return them.  Zero-length bytecode decodes from
`0x` and is stored like any other result. -/
def getCode (rpc : RpcOracle) (st : CacheState) (addr : String) (blockNum : Nat) :
    Except WErr Code × CacheState :=
  match lruGet st.cache (codeCacheKey addr blockNum) with
  | (some cached, cache2) => (.ok cached, { cache := cache2, netCalls := st.netCalls })
  | (none, cache2) =>
    match rpc addr blockNum with
    | .error _ => (.error .codeResolution, { cache := cache2, netCalls := st.netCalls + 1 })
    | .ok hex =>
      match hexDecode hex with
      | .error e => (.error e, { cache := cache2, netCalls := st.netCalls + 1 })
      | .ok bytes =>
        (.ok { addr := addr, code := bytes },
          { cache := lruAdd cache2 (codeCacheKey addr blockNum) { addr := addr, code := bytes },
            netCalls := st.netCalls + 1 })

end Resolver

namespace Retry

/-! `calculateDelay` of src/internal/rpcclient.go lines 179-196, over ℚ.
`rand.Float64()` is the parameter `j`, which the transport draws from
[0, 1). -/

/-- `calculateDelay`: exponential backoff `baseDelay * 2^(attempt-1)`,
capped at `maxDelay`, then jitter of `j * 0.5 * delay` added when jitter
is enabled. -/
def calculateDelay (baseDelay maxDelay : ℚ) (jitterOn : Bool) (j : ℚ) (attempt : Nat) : ℚ :=
  let delay := baseDelay * 2 ^ (attempt - 1)
  let capped := if delay > maxDelay then maxDelay else delay
  if jitterOn then capped + j * (1 / 2) * capped else capped

end Retry

namespace Agg

/-! The block aggregation of `Analyze`, second analyzer iteration
(src/internal/analyzer.go lines 305-368): per-transaction tasks run the
walker and send `TraceResult`s; the aggregator goroutine merges them into
a map keyed by address; `workers.Wait()` surfaces the first task error, in
which case `Analyze` returns the error with the zero `BlockResult`.
A task is modelled by its outcome: an error, or the list of results it
emitted. -/

/-- `MergedTraceResult` (lines 300-303). -/
structure MergedTraceResult where
  bits : BitSet
  codeOpsCount : Nat
deriving DecidableEq, Repr

/-- `BlockResult` (lines 295-298), the address map as an association
list. -/
structure BlockResult where
  blockNum : Nat
  results : List (String × MergedTraceResult)
deriving DecidableEq, Repr

/-- One step of the aggregator goroutine (lines 317-327): merge a received
result into the map, `Merge` panicking on a size mismatch. -/
def mergeOne (agg : List (String × MergedTraceResult)) (r : A2.TraceResult) :
    Except WErr (List (String × MergedTraceResult)) :=
  match agg.lookup r.addr with
  | some existing =>
    match existing.bits.Merge r.bits with
    | none => .error .mergePanic
    | some b2 =>
      .ok (agg.map fun p =>
        if p.1 = r.addr then (p.1, ⟨b2, existing.codeOpsCount + r.codeOpsCount⟩) else p)
  | none => .ok (agg ++ [(r.addr, ⟨r.bits, r.codeOpsCount⟩)])

/-- The aggregator loop over all received results. -/
def mergeAll : List A2.TraceResult → List (String × MergedTraceResult) →
    Except WErr (List (String × MergedTraceResult))
  | [], agg => .ok agg
  | r :: rest, agg =>
    match mergeOne agg r with
    | .error e => .error e
    | .ok agg2 => mergeAll rest agg2

/-- `workers.Wait()`: the first error among the task outcomes, if any. -/
def firstTaskError (outcomes : List (Except WErr (List A2.TraceResult))) : Option WErr :=
  outcomes.findSome? fun o => match o with | .error e => some e | .ok _ => none

/-- `Analyze` (lines 305-368) for one block, over the task outcomes: if any
task failed, the first error is returned and the zero `BlockResult` is
discarded (`return BlockResult{}, err`); otherwise every emitted result is
merged into the per-address map. -/
def analyzeBlock (blockNum : Nat) (outcomes : List (Except WErr (List A2.TraceResult))) :
    Except WErr BlockResult :=
  match firstTaskError outcomes with
  | some e => .error e
  | none =>
    match mergeAll ((outcomes.map fun o => match o with | .ok rs => rs | .error _ => []).flatten) [] with
    | .error e => .error e
    | .ok agg => .ok { blockNum := blockNum, results := agg }

end Agg

/-! ## Specification-side definitions and concrete scenario inputs -/

/-- Whether the fixed-width window `w` (code byte offsets
`chunkSize*w .. chunkSize*w + chunkSize - 1`) contains at least one set
bit.  This is the specification's reading of an accessed chunk, written
against `testIdx` rather than the word array. -/
def BitSet.windowAccessed (b : BitSet) (w : Nat) : Bool :=
  (List.range BitSet.chunkSize).any fun j => b.testIdx (BitSet.chunkSize * w + j)

/-- The specification's chunk count: the number of fixed-width windows
containing at least one set bit. -/
def BitSet.chunkWindowsAccessed (b : BitSet) : Nat :=
  (List.range b.bits.length).countP fun w => b.windowAccessed w

/-- Scenario oracle: address `0xd` resolves to a two-byte contract, every
other address fails to resolve. -/
def demoOra : CodeOracle := fun a => if a = "0xd" then .ok ⟨"0xd", [5, 5]⟩ else .error ()

/-- Scenario entry contract: three bytes of code at address `0xc`. -/
def demoCaller : Code := ⟨"0xc", [0, 0, 0]⟩

/-- A CALL step at depth 1 whose second-from-top stack entry is the callee
address `0xd`. -/
def stepCall : TraceStep := ⟨0, "CALL", 1, ["0xd", "0xg"]⟩

/-- The callee's single step at depth 2. -/
def stepBody : TraceStep := ⟨1, "STOP", 2, []⟩

/-- The step on which the caller resumes at depth 1. -/
def stepRet : TraceStep := ⟨1, "JUMP", 1, []⟩

/-- A step that stays at depth 1 (the call did not enter a frame). -/
def stepStopD1 : TraceStep := ⟨1, "STOP", 1, []⟩

/-- Trace in which the CALL enters a new frame: the step after the CALL is
at depth 2. -/
def enterTrace : List TraceStep := [stepCall, stepBody, stepRet]

/-- Trace in which the CALL does not enter a frame: the step after the
CALL stays at depth 1. -/
def noEnterTrace : List TraceStep := [stepCall, stepStopD1]

/-- The entry-frame result `analyze` hands to `analyzeSteps2`
(`newTraceResult(code, blockNum)` for `demoCaller` at block 7). -/
def demoCallerStart : A2.TraceResult := ⟨7, "0xc", ⟨[0], 3⟩, 0⟩

/-- Scenario oracle for the EXTCODESIZE claim: address `0xt` resolves to a
three-byte contract. -/
def extOra : CodeOracle := fun a => if a = "0xt" then .ok ⟨"0xt", [1, 2, 3]⟩ else .error ()

/-- Caller contract for the EXTCODESIZE scenario. -/
def extCaller : Code := ⟨"0xc", [9, 9]⟩

/-- An EXTCODESIZE step at depth 1 with the target address on top of the
stack. -/
def stepExt : TraceStep := ⟨0, "EXTCODESIZE", 1, ["0xt"]⟩

/-- An oracle for which every resolution fails (the RPC errors). -/
def errOra : CodeOracle := fun _ => .error ()

/-- Witness accessor for the merge claim: bit 0 set, size 3. -/
def w5a : BitSet := ⟨[1], 3⟩

/-- Witness accessor for the merge claim: bit 2 set, size 3. -/
def w5b : BitSet := ⟨[4], 3⟩

/-- Witness accessor for the chunk claim: 93 bytes, three windows, bits in
windows 0 and 2. -/
def w6b : BitSet := ⟨[1, 0, 6], 93⟩

/-- Witness accessor for the push-bounds claim: two bytes of code. -/
def w10bits : BitSet := ⟨[0], 2⟩

/-- Witness step for the push-bounds claim: a PUSH2 at pc 0 of a two-byte
contract, whose immediate operand runs past the end of the code. -/
def w10step : TraceStep := ⟨0, "PUSH2", 1, []⟩

/-- Witness transport for the resolver claim: every query returns the
empty-code payload. -/
def rpcEmpty : Resolver.RpcOracle := fun _ _ => .ok "0x"

/-- An empty resolver state. -/
def emptyState : Resolver.CacheState := ⟨[], 0⟩

/-! ## Helper lemmas -/

theorem onesCount32_zero : onesCount32 0 = 0 := by decide

theorem setRaw_size (b : BitSet) (i : Nat) : (b.setRaw i).size = b.size := rfl

theorem getD_zipWith_lor (l1 : List Nat) :
    ∀ (l2 : List Nat) (w : Nat), l1.length = l2.length →
      (List.zipWith (fun x y => x ||| y) l1 l2).getD w 0 = (l1.getD w 0) ||| (l2.getD w 0) := by
  induction l1 with
  | nil =>
    intro l2 w h
    cases l2 with
    | nil => simp
    | cons b t2 => simp at h
  | cons a t ih =>
    intro l2 w h
    cases l2 with
    | nil => simp at h
    | cons b t2 =>
      cases w with
      | zero => simp
      | succ w => simpa using ih t2 w (by simpa using h)

theorem zipWith_lor_right_idem (l1 : List Nat) :
    ∀ l2 : List Nat,
      List.zipWith (fun x y => x ||| y) (List.zipWith (fun x y => x ||| y) l1 l2) l2
        = List.zipWith (fun x y => x ||| y) l1 l2 := by
  induction l1 with
  | nil => intro l2; simp
  | cons a t ih =>
    intro l2
    cases l2 with
    | nil => simp
    | cons b t2 => simp [Nat.or_assoc, Nat.or_self, ih t2]

theorem countP_range_getD (l : List Nat) (p : Nat → Bool) :
    l.countP p = (List.range l.length).countP (fun i => p (l.getD i 0)) := by
  induction l with
  | nil => simp
  | cons a t ih =>
    rw [List.length_cons, List.range_succ_eq_map, List.countP_cons, List.countP_cons,
      List.countP_map, ih]
    rfl

theorem word_ne_zero_eq_any (v : Nat) (hv : v < 2 ^ 31) :
    (v != 0) = (List.range 31).any fun j => v.testBit j := by
  by_cases hv0 : v = 0
  · subst hv0
    simp [Nat.zero_testBit]
  · have hex : ∃ j, j < 31 ∧ v.testBit j = true := by
      by_contra hno
      push_neg at hno
      apply hv0
      apply Nat.zero_of_testBit_eq_false
      intro i
      by_cases hi : i < 31
      · have := hno i hi
        simpa using this
      · exact Nat.testBit_lt_two_pow
          (lt_of_lt_of_le hv (Nat.pow_le_pow_right (by norm_num) (by omega)))
    obtain ⟨j, hj, ht⟩ := hex
    have hR : ((List.range 31).any fun j => v.testBit j) = true :=
      List.any_eq_true.mpr ⟨j, List.mem_range.mpr hj, ht⟩
    rw [hR]
    simpa using hv0

theorem ceilDiv31 (s : Nat) (hs : 0 < s) : ((s + 31 - 1) / 31 : Nat) = ⌈(s : ℚ) / 31⌉₊ := by
  have h31 : (0:ℚ) < 31 := by norm_num
  set n := (s + 31 - 1) / 31 with hn
  have hdm := Nat.div_add_mod (s + 30) 31
  have hml : (s + 30) % 31 < 31 := Nat.mod_lt _ (by norm_num)
  have hne : (s + 31 - 1) / 31 = (s + 30) / 31 := by norm_num
  have hA : s ≤ 31 * n := by omega
  have hB : 31 * n ≤ s + 30 := by omega
  have hn0 : n ≠ 0 := by omega
  symm
  rw [Nat.ceil_eq_iff hn0]
  constructor
  · rw [lt_div_iff h31]
    have : (31 : ℚ) * (n - 1) < s := by
      have hcast : ((31 * n : Nat) : ℚ) ≤ ((s + 30 : Nat) : ℚ) := by exact_mod_cast hB
      push_cast at hcast ⊢
      have hn1 : (1 : ℚ) ≤ (n : ℚ) := by exact_mod_cast Nat.one_le_iff_ne_zero.mpr hn0
      nlinarith
    calc ((n - 1 : Nat) : ℚ) * 31 ≤ ((n : ℚ) - 1) * 31 := by
            have : ((n - 1 : Nat) : ℚ) ≤ (n : ℚ) - 1 := by
              have hn1 : 1 ≤ n := Nat.one_le_iff_ne_zero.mpr hn0
              push_cast [Nat.cast_sub hn1]
              ring_nf
              exact le_refl _
            nlinarith
      _ < s := by nlinarith
  · rw [div_le_iff h31]
    have : (s : ℚ) ≤ (31 * n : Nat) := by exact_mod_cast hA
    push_cast at this
    linarith

theorem getD_replicate_zero (n j : Nat) : (List.replicate n (0 : Nat)).getD j 0 = 0 := by
  induction n generalizing j with
  | zero => simp
  | succ n ih =>
    cases j with
    | zero => simp
    | succ j => simpa using ih j

theorem getD_set_ne (l : List Nat) (i j a : Nat) (h : i ≠ j) :
    (l.set i a).getD j 0 = l.getD j 0 := by
  simp [List.getD_eq_getElem?_getD, List.getElem?_set_ne h]

theorem getD_set_self (l : List Nat) (i a : Nat) (h : i < l.length) :
    (l.set i a).getD i 0 = a := by
  simp [List.getD_eq_getElem?_getD, List.getElem?_set_self h]

theorem getD_set_self_oob (l : List Nat) (i a : Nat) (h : ¬ i < l.length) :
    (l.set i a).getD i 0 = l.getD i 0 := by
  rw [List.set_eq_of_length_le (by omega)]

/-- A bit read from `setRaw b i` is either an old bit of `b` or the bit
`i` itself. -/
theorem testIdx_setRaw_true (b : BitSet) (i j : Nat)
    (h : (b.setRaw i).testIdx j = true) : b.testIdx j = true ∨ j = i := by
  unfold BitSet.testIdx at h ⊢
  unfold BitSet.setRaw at h
  simp only at h
  by_cases hw : i / BitSet.chunkSize = j / BitSet.chunkSize
  · by_cases hlen : i / BitSet.chunkSize < b.bits.length
    · rw [hw] at h hlen
      rw [getD_set_self _ _ _ hlen] at h
      rw [Nat.testBit_or] at h
      rcases Bool.or_eq_true_iff.mp h with h1 | h2
      · exact Or.inl h1
      · right
        rw [Nat.one_shiftLeft, Nat.testBit_two_pow] at h2
        have hmod : i % BitSet.chunkSize = j % BitSet.chunkSize := of_decide_eq_true h2
        have hi := Nat.div_add_mod i BitSet.chunkSize
        have hj := Nat.div_add_mod j BitSet.chunkSize
        rw [hw, hmod] at hi
        omega
    · rw [hw] at h hlen
      rw [getD_set_self_oob _ _ _ hlen] at h
      exact Or.inl h
  · rw [getD_set_ne _ _ _ _ hw] at h
    exact Or.inl h

theorem inBounds_setRaw (b : BitSet) (i : Nat) (hb : b.InBounds) (hi : i < b.size) :
    (b.setRaw i).InBounds := by
  intro j hj
  rw [setRaw_size]
  rcases testIdx_setRaw_true b i j hj with h | h
  · exact hb j h
  · omega

theorem inBounds_set (b : BitSet) (i : Nat) (b2 : BitSet) (hb : b.InBounds)
    (h : b.Set i = some b2) : b2.InBounds := by
  unfold BitSet.Set at h
  by_cases hge : i ≥ b.size
  · simp [hge] at h
  · simp [hge] at h
    subst h
    exact inBounds_setRaw b i hb (by omega)

theorem inBounds_setWithCheck (b : BitSet) (i : Nat) (b2 : BitSet) (hb : b.InBounds)
    (h : b.SetWithCheck i = .ok b2) : b2.InBounds := by
  unfold BitSet.SetWithCheck at h
  by_cases hge : i ≥ b.size
  · simp [hge] at h
  · simp [hge] at h
    subst h
    exact inBounds_setRaw b i hb (by omega)

theorem inBounds_newBitSet (s : Nat) (b : BitSet) (h : BitSet.NewBitSet s = some b) :
    b.InBounds := by
  unfold BitSet.NewBitSet at h
  by_cases h0 : s = 0
  · simp [h0] at h
  · by_cases h1 : s > maxContractBytes
    · simp [h0, h1] at h
    · simp [h0, h1] at h
      intro i hi
      rw [← h] at hi
      unfold BitSet.testIdx at hi
      simp only at hi
      rw [getD_replicate_zero] at hi
      simp [Nat.zero_testBit] at hi

theorem testBit_getD_zipWith_lor (l1 : List Nat) :
    ∀ (l2 : List Nat) (w i : Nat),
      ((List.zipWith (fun x y => x ||| y) l1 l2).getD w 0).testBit i = true →
      (l1.getD w 0).testBit i = true ∨ (l2.getD w 0).testBit i = true := by
  induction l1 with
  | nil =>
    intro l2 w i h
    simp [Nat.zero_testBit] at h
  | cons a t ih =>
    intro l2 w i h
    cases l2 with
    | nil => simp [Nat.zero_testBit] at h
    | cons b t2 =>
      cases w with
      | zero =>
        simp only [List.zipWith_cons_cons, List.getD_cons_zero, Nat.testBit_or] at h ⊢
        exact Bool.or_eq_true_iff.mp h
      | succ w =>
        simp only [List.zipWith_cons_cons, List.getD_cons_succ] at h ⊢
        exact ih t2 w i h

theorem inBounds_merge (a b m : BitSet) (ha : a.InBounds) (hb : b.InBounds)
    (h : a.Merge b = some m) : m.InBounds := by
  unfold BitSet.Merge at h
  by_cases hs : a.size ≠ b.size
  · simp [hs] at h
  · by_cases hl : b.bits.length < a.bits.length
    · simp [hs, hl] at h
    · simp [hs, hl] at h
      push_neg at hs
      intro j hj
      rw [← h] at hj ⊢
      unfold BitSet.testIdx at hj
      simp only at hj ⊢
      rcases testBit_getD_zipWith_lor a.bits b.bits _ _ hj with hcase | hcase
      · exact ha j hcase
      · rw [hs]
        exact hb j hcase

theorem pushLoopChecked_error (n : Nat) :
    ∀ (bits : BitSet) (start : Nat), 1 ≤ n → bits.size ≤ start + n - 1 →
      pushLoopChecked bits start n =
        .error (.setOutOfRange (max start bits.size) bits.size) := by
  induction n with
  | zero => intro bits start h1 _; omega
  | succ k ih =>
    intro bits start _ h2
    by_cases hge : start ≥ bits.size
    · unfold pushLoopChecked BitSet.SetWithCheck
      simp only [hge, if_true]
      rw [Nat.max_eq_left hge]
    · have hlt : start < bits.size := by omega
      have hk : 1 ≤ k := by omega
      unfold pushLoopChecked BitSet.SetWithCheck
      simp only [hge, if_false]
      rw [ih (bits.setRaw start) (start + 1) hk (by rw [setRaw_size]; omega)]
      rw [setRaw_size]
      rw [Nat.max_eq_right (by omega), Nat.max_eq_right (by omega)]

theorem pushLoopChecked_inBounds (n : Nat) :
    ∀ (bits : BitSet) (start : Nat) (b2 : BitSet), bits.InBounds →
      pushLoopChecked bits start n = .ok b2 → b2.InBounds := by
  induction n with
  | zero =>
    intro bits start b2 hb h
    unfold pushLoopChecked at h
    cases h
    exact hb
  | succ k ih =>
    intro bits start b2 hb h
    unfold pushLoopChecked at h
    by_cases hge : start ≥ bits.size
    · unfold BitSet.SetWithCheck at h
      simp [hge] at h
    · unfold BitSet.SetWithCheck at h
      simp only [hge, if_false] at h
      exact ih _ _ _ (inBounds_setRaw bits start hb (by omega)) h

theorem findSome?_isError (outcomes : List (Except WErr (List A2.TraceResult))) (e : WErr)
    (h : Except.error e ∈ outcomes) :
    ∃ e2, Agg.firstTaskError outcomes = some e2 := by
  induction outcomes with
  | nil => cases h
  | cons o rest ih =>
    unfold Agg.firstTaskError at ih ⊢
    cases o with
    | error e3 => exact ⟨e3, by simp [List.findSome?_cons]⟩
    | ok rs =>
      rcases List.mem_cons.mp h with h1 | h1
      · cases h1
      · obtain ⟨e2, he2⟩ := ih h1
        exact ⟨e2, by simpa [List.findSome?_cons] using he2⟩

theorem any_range_congr (n : Nat) (p q : Nat → Bool) (h : ∀ j, j < n → p j = q j) :
    (List.range n).any p = (List.range n).any q := by
  induction n with
  | zero => simp
  | succ k ih =>
    rw [List.range_succ, List.any_append, List.any_append]
    rw [ih (fun j hj => h j (by omega))]
    simp [h k (by omega)]

theorem testIdx_window (b : BitSet) (i j : Nat) (hj : j < BitSet.chunkSize) :
    b.testIdx (BitSet.chunkSize * i + j) = (b.bits.getD i 0).testBit j := by
  unfold BitSet.testIdx
  have h1 : (BitSet.chunkSize * i + j) / BitSet.chunkSize = i := by
    rw [Nat.mul_add_div (by decide), Nat.div_eq_of_lt hj]
    omega
  have h2 : (BitSet.chunkSize * i + j) % BitSet.chunkSize = j := by
    rw [Nat.mul_add_mod]
    exact Nat.mod_eq_of_lt hj
  rw [h1, h2]

theorem windowAccessed_eq (b : BitSet) (i : Nat) :
    b.windowAccessed i = (List.range BitSet.chunkSize).any fun j => (b.bits.getD i 0).testBit j := by
  unfold BitSet.windowAccessed
  exact any_range_congr _ _ _ (fun j hj => testIdx_window b i j hj)

/-! ## Claim theorems -/

/-- C7 counterexample.  In the part_001 accessor, an accessor that never
saw a direct `Set` (cached `setCount` 0) receives a bit through `Merge`:
`count()` then recounts to 1, which equals `size`, yet `isFull()` is
`false` because it compares the stale cached counter.  So `isFull()` is
not equivalent to `count() == size` when bits were added via merge. -/
theorem claim7_counterexample :
    BitSetC.NewBitSet 1 = some ⟨[0], 1, 0⟩ ∧
    BitSetC.Set ⟨[0], 1, 0⟩ 0 = some ⟨[1], 1, 1⟩ ∧
    BitSetC.Merge ⟨[0], 1, 0⟩ ⟨[1], 1, 1⟩ = some ⟨[1], 1, 0⟩ ∧
    BitSetC.Count ⟨[1], 1, 0⟩ = 1 ∧
    (1 : Nat) = BitSetC.size ⟨[1], 1, 0⟩ ∧
    BitSetC.IsFull ⟨[1], 1, 0⟩ = false := by
  refine ⟨by decide, by decide, by decide, by decide, by decide, by decide⟩

/-- C7 amended: in the popcount-based accessor of part_002, `isFull()` is
true exactly when `count()` equals `size`, for every accessor; in the
cached-counter accessor of part_001 the equivalence holds whenever at
least one bit was added through `set` (`setCount ≠ 0`), and can fail only
for an accessor populated exclusively through `merge`. -/
theorem claim7_isFull_iff_count :
    (∀ b : BitSet, b.IsFull = true ↔ b.Count = b.size) ∧
    (∀ c : BitSetC, c.setCount ≠ 0 → (c.IsFull = true ↔ c.Count = c.size)) := by
  constructor
  · intro b
    unfold BitSet.IsFull
    exact beq_iff_eq
  · intro c hc
    unfold BitSetC.IsFull BitSetC.Count
    simp [hc]

/-- C7 witness: the amended equivalence applied to a concrete accessor
with a nonzero cached counter. -/
theorem claim7_witness :
    (⟨[1], 1, 1⟩ : BitSetC).setCount ≠ 0 ∧
    ((⟨[1], 1, 1⟩ : BitSetC).IsFull = true ↔
      (⟨[1], 1, 1⟩ : BitSetC).Count = (⟨[1], 1, 1⟩ : BitSetC).size) :=
  ⟨by decide, claim7_isFull_iff_count.2 ⟨[1], 1, 1⟩ (by decide)⟩

/-- C9 counterexample.  With base delay = max delay = 20000 ms and jitter
enabled, a jitter draw of one half makes the first retry wait 25000 ms,
which exceeds the configured maximum: the jitter is added after the cap,
so the waited delay is not bounded by the maximum when jitter is on. -/
theorem claim9_counterexample :
    Retry.calculateDelay 20000 20000 true (1 / 2) 1 = 25000 ∧
    (20000 : ℚ) < Retry.calculateDelay 20000 20000 true (1 / 2) 1 := by
  constructor <;> norm_num [Retry.calculateDelay]

/-- C9 amended: the exponential backoff `base * 2^(attempt-1)` is capped at
the configured maximum before jitter, so without jitter the waited delay
never exceeds the maximum; with jitter enabled, a random extra of up to
50 percent of the capped delay is added after the cap, so the waited delay
is bounded by 1.5 times the maximum (and can exceed the maximum itself). -/
theorem claim9_delay_capped (base maxD j : ℚ) (attempt : Nat)
    (hb : 0 ≤ base) (hm : 0 ≤ maxD) (hj0 : 0 ≤ j) (hj1 : j < 1) :
    Retry.calculateDelay base maxD false j attempt ≤ maxD ∧
    Retry.calculateDelay base maxD true j attempt ≤ 3 / 2 * maxD := by
  have hd0 : 0 ≤ base * 2 ^ (attempt - 1) := by positivity
  unfold Retry.calculateDelay
  simp only [Bool.false_eq_true, if_false, if_true]
  by_cases hgt : base * 2 ^ (attempt - 1) > maxD
  · simp only [hgt, if_true]
    constructor
    · linarith
    · nlinarith
  · simp only [hgt, if_false]
    have hle : base * 2 ^ (attempt - 1) ≤ maxD := le_of_not_gt hgt
    constructor
    · linarith
    · nlinarith

/-- C9 witness: the amended bounds applied at base 1000 ms, max 20000 ms,
jitter draw one half, attempt 3. -/
theorem claim9_witness :
    (0 : ℚ) ≤ 1000 ∧ (0 : ℚ) ≤ 20000 ∧ (0 : ℚ) ≤ 1 / 2 ∧ (1 / 2 : ℚ) < 1 ∧
    Retry.calculateDelay 1000 20000 false (1 / 2) 3 ≤ 20000 ∧
    Retry.calculateDelay 1000 20000 true (1 / 2) 3 ≤ 3 / 2 * 20000 := by
  refine ⟨by norm_num, by norm_num, by norm_num, by norm_num, ?_, ?_⟩
  · exact (claim9_delay_capped 1000 20000 (1 / 2) 3 (by norm_num) (by norm_num)
      (by norm_num) (by norm_num)).1
  · exact (claim9_delay_capped 1000 20000 (1 / 2) 3 (by norm_num) (by norm_num)
      (by norm_num) (by norm_num)).2

/-- C4: if any per-transaction task of a block returns an error, the block
aggregation returns an error (the first task error via the error group)
and never an `.ok BlockResult` — no partially merged per-address mapping
is delivered. -/
theorem claim4_task_failure_aborts_block (bn : Nat)
    (outcomes : List (Except WErr (List A2.TraceResult))) (e : WErr)
    (h : Except.error e ∈ outcomes) :
    (∃ e2, Agg.analyzeBlock bn outcomes = .error e2) ∧
    ∀ br : Agg.BlockResult, Agg.analyzeBlock bn outcomes ≠ .ok br := by
  obtain ⟨e2, he2⟩ := findSome?_isError outcomes e h
  constructor
  · refine ⟨e2, ?_⟩
    unfold Agg.analyzeBlock
    rw [he2]
  · intro br hbr
    unfold Agg.analyzeBlock at hbr
    rw [he2] at hbr
    cases hbr

/-- C4 witness: a block whose single task failed with a resolution error. -/
theorem claim4_witness :
    (Except.error WErr.codeResolution ∈
      ([Except.error WErr.codeResolution] : List (Except WErr (List A2.TraceResult)))) ∧
    (∃ e2, Agg.analyzeBlock 5 [Except.error WErr.codeResolution] = .error e2) ∧
    ∀ br : Agg.BlockResult, Agg.analyzeBlock 5 [Except.error WErr.codeResolution] ≠ .ok br :=
  ⟨by simp, (claim4_task_failure_aborts_block 5 _ WErr.codeResolution (by simp)).1,
    (claim4_task_failure_aborts_block 5 _ WErr.codeResolution (by simp)).2⟩

/-- C5: `Merge` fails (panics) exactly when the sizes differ; on equal
sizes it succeeds and the resulting pattern is the bitwise union of the
operands, which makes it commutative on the bit pattern, and merging the
same operand a second time leaves the pattern unchanged. -/
theorem claim5_merge_union_comm_idem (a b : BitSet) (ha : a.Wf) (hb : b.Wf) :
    (a.size ≠ b.size → a.Merge b = none) ∧
    (a.size = b.size →
      ∃ m mr, a.Merge b = some m ∧ b.Merge a = some mr ∧
        m.bits = mr.bits ∧ m.size = mr.size ∧
        (∀ w i, (m.bits.getD w 0).testBit i =
          ((a.bits.getD w 0).testBit i || (b.bits.getD w 0).testBit i)) ∧
        m.Merge b = some m) := by
  constructor
  · intro hne
    unfold BitSet.Merge
    simp [hne]
  · intro heq
    have hlen : a.bits.length = b.bits.length := by
      rw [ha.1, hb.1, heq]
    refine ⟨⟨List.zipWith (fun x y => x ||| y) a.bits b.bits, a.size⟩,
            ⟨List.zipWith (fun x y => x ||| y) b.bits a.bits, b.size⟩, ?_, ?_, ?_, ?_, ?_, ?_⟩
    · unfold BitSet.Merge
      simp [heq, hlen]
    · unfold BitSet.Merge
      simp [heq, hlen]
    · simpa using (List.zipWith_comm_of_comm _ Nat.or_comm a.bits b.bits)
    · simpa using heq
    · intro w i
      simp only
      rw [getD_zipWith_lor a.bits b.bits w hlen, Nat.testBit_or]
    · unfold BitSet.Merge
      have hlz : (List.zipWith (fun x y => x ||| y) a.bits b.bits).length = a.bits.length := by
        rw [List.length_zipWith]
        omega
      simp only [heq, ne_eq, not_true_eq_false, if_false, hlz]
      rw [if_neg (by omega)]
      congr 1
      exact congrArg (fun l => BitSet.mk l b.size) (zipWith_lor_right_idem a.bits b.bits)

/-- C5 witness: the merge properties applied to two concrete well-formed
size-3 accessors. -/
theorem claim5_witness :
    w5a.Wf ∧ w5b.Wf ∧
    (w5a.size ≠ w5b.size → w5a.Merge w5b = none) ∧
    (w5a.size = w5b.size →
      ∃ m mr, w5a.Merge w5b = some m ∧ w5b.Merge w5a = some mr ∧
        m.bits = mr.bits ∧ m.size = mr.size ∧
        (∀ w i, (m.bits.getD w 0).testBit i =
          ((w5a.bits.getD w 0).testBit i || (w5b.bits.getD w 0).testBit i)) ∧
        m.Merge w5b = some m) :=
  ⟨by decide, by decide,
    (claim5_merge_union_comm_idem w5a w5b (by decide) (by decide)).1,
    (claim5_merge_union_comm_idem w5a w5b (by decide) (by decide)).2⟩

/-- C6: `chunkCount()` equals the number of fixed-width (31-byte) windows
that contain at least one set bit — a window counts once no matter how
many of its bits are set — and `chunkProportion()` equals `chunkCount`
divided by the number of windows, which is the ceiling of `size` over the
chunk width. -/
theorem claim6_chunk_count_proportion (b : BitSet) (hw : b.Wf) :
    b.ChunkCount = b.chunkWindowsAccessed ∧
    b.ChunkProportion = (b.ChunkCount : ℚ) / (⌈(b.size : ℚ) / 31⌉₊ : ℚ) ∧
    b.bits.length = ⌈(b.size : ℚ) / 31⌉₊ := by
  have hcs : BitSet.chunkSize = 31 := rfl
  have hceil : b.bits.length = ⌈(b.size : ℚ) / 31⌉₊ := by
    rw [hw.1, hcs]
    exact ceilDiv31 b.size hw.2.1
  refine ⟨?_, ?_, hceil⟩
  · unfold BitSet.ChunkCount BitSet.chunkWindowsAccessed
    rw [countP_range_getD b.bits (fun w => w != 0)]
    apply List.countP_congr
    intro i hi
    have hilen : i < b.bits.length := List.mem_range.mp hi
    have hvmem : b.bits.getD i 0 ∈ b.bits := by
      rw [List.getD_eq_getElem?_getD, List.getElem?_eq_getElem hilen]
      exact List.getElem_mem hilen
    have hv : b.bits.getD i 0 < 2 ^ 31 := hw.2.2.2 _ hvmem
    rw [windowAccessed_eq, hcs, ← word_ne_zero_eq_any _ hv]
  · unfold BitSet.ChunkProportion
    rw [hceil]

/-- C6 witness: the chunk statistics applied to a concrete well-formed
accessor of 93 bytes (three windows, two of them touched). -/
theorem claim6_witness :
    w6b.Wf ∧
    (w6b.ChunkCount = w6b.chunkWindowsAccessed ∧
      w6b.ChunkProportion = (w6b.ChunkCount : ℚ) / (⌈(w6b.size : ℚ) / 31⌉₊ : ℚ) ∧
      w6b.bits.length = ⌈(w6b.size : ℚ) / 31⌉₊) :=
  ⟨by decide, claim6_chunk_count_proportion w6b (by decide)⟩

/-- C10: a PUSHN step whose immediate operand runs past the end of the
code (`pc + N ≥ size`) makes `handlePush` fail with the out-of-range
error from `SetWithCheck` (at the first out-of-bounds immediate byte)
instead of marking only the in-bounds bytes; and no operation —
`NewBitSet`, `Set`, `SetWithCheck`, `Merge`, or `handlePush` — ever sets
a bit at an index at or beyond `size` in any accessor. -/
theorem claim10_push_out_of_range :
    (∀ (bits : BitSet) (step : TraceStep) (n : Nat),
      atoi (step.op.drop 4) = some n → 1 ≤ n → n ≤ 32 →
      bits.size ≤ step.pc + n →
      A3.handlePush bits step =
        .error (.setOutOfRange (max (step.pc + 1) bits.size) bits.size)) ∧
    (∀ (s : Nat) (b : BitSet), BitSet.NewBitSet s = some b → b.InBounds) ∧
    (∀ (b : BitSet) (i : Nat) (b2 : BitSet), b.InBounds → b.Set i = some b2 → b2.InBounds) ∧
    (∀ (b : BitSet) (i : Nat) (b2 : BitSet), b.InBounds → b.SetWithCheck i = .ok b2 →
      b2.InBounds) ∧
    (∀ (a b m : BitSet), a.InBounds → b.InBounds → a.Merge b = some m → m.InBounds) ∧
    (∀ (bits : BitSet) (step : TraceStep) (b2 : BitSet), bits.InBounds →
      A3.handlePush bits step = .ok b2 → b2.InBounds) := by
  refine ⟨?_, ?_, ?_, ?_, ?_, ?_⟩
  · intro bits step n hparse h1 _ hover
    unfold A3.handlePush
    rw [hparse]
    exact pushLoopChecked_error n bits (step.pc + 1) h1 (by omega)
  · intro s b h
    exact inBounds_newBitSet s b h
  · intro b i b2 hb h
    exact inBounds_set b i b2 hb h
  · intro b i b2 hb h
    exact inBounds_setWithCheck b i b2 hb h
  · intro a b m ha hb h
    exact inBounds_merge a b m ha hb h
  · intro bits step b2 hb h
    unfold A3.handlePush at h
    cases hp : atoi (step.op.drop 4) with
    | none => rw [hp] at h; cases h
    | some n =>
      rw [hp] at h
      exact pushLoopChecked_inBounds n bits (step.pc + 1) b2 hb h

/-- C10 witness: a PUSH2 at pc 0 of a two-byte contract fails out of
range, and the invariant instances applied at concrete accessors. -/
theorem claim10_witness :
    (atoi (w10step.op.drop 4) = some 2 ∧ 1 ≤ 2 ∧ 2 ≤ 32 ∧ w10bits.size ≤ w10step.pc + 2) ∧
    A3.handlePush w10bits w10step =
      .error (.setOutOfRange (max (w10step.pc + 1) w10bits.size) w10bits.size) :=
  ⟨⟨by decide, by decide, by decide, by decide⟩,
    claim10_push_out_of_range.1 w10bits w10step 2 (by decide) (by decide) (by decide) (by decide)⟩

theorem lookup_lruAdd_self (cache : List (String × Code)) (key : String) (v : Code) :
    (Resolver.lruAdd cache key v).lookup key = some v := by
  unfold Resolver.lruAdd Resolver.lruCapacity
  rw [show (100000 : Nat) = 99999 + 1 from rfl, List.take_succ_cons]
  exact List.lookup_cons_self

theorem lruGet_of_lookup_some (cache : List (String × Code)) (key : String) (v : Code)
    (h : cache.lookup key = some v) :
    Resolver.lruGet cache key = (some v, (key, v) :: cache.filter (fun p => p.1 != key)) := by
  unfold Resolver.lruGet
  rw [h]

theorem lruGet_of_lookup_none (cache : List (String × Code)) (key : String)
    (h : cache.lookup key = none) :
    Resolver.lruGet cache key = (none, cache) := by
  unfold Resolver.lruGet
  rw [h]

/-- After any successful `getCode`, the key is present in the cache (at
the front: a hit promotes it, a miss inserts it). -/
theorem getCode_caches (rpc : Resolver.RpcOracle) (st : Resolver.CacheState)
    (addr : String) (bn : Nat) (c : Code) (st2 : Resolver.CacheState)
    (h : Resolver.getCode rpc st addr bn = (.ok c, st2)) :
    st2.cache.lookup (Resolver.codeCacheKey addr bn) = some c := by
  unfold Resolver.getCode at h
  split at h
  case _ cached cache2 heq =>
    simp only [Prod.mk.injEq, Except.ok.injEq] at h
    obtain ⟨hc, hst⟩ := h
    unfold Resolver.lruGet at heq
    cases hl : st.cache.lookup (Resolver.codeCacheKey addr bn) with
    | some c0 =>
      rw [hl] at heq
      simp only [Prod.mk.injEq, Option.some.injEq] at heq
      rw [← hst, ← heq.2, ← hc, heq.1]
      exact List.lookup_cons_self
    | none =>
      rw [hl] at heq
      simp at heq
  case _ cache2 heq =>
    split at h
    · simp at h
    case _ hex hr =>
      split at h
      · simp at h
      case _ bytes hd =>
        simp only [Prod.mk.injEq, Except.ok.injEq] at h
        obtain ⟨hc, hst⟩ := h
        rw [← hst, ← hc]
        exact lookup_lruAdd_self _ _ _

/-- C8: `getCode` consults the cache, keyed by the exact (address, block)
pair, before issuing any network call — a hit returns the cached decoded
bytes with the network-request counter unchanged; after any successful
call, repeating it with the same pair returns the same bytes without a
new network request; and zero-length bytecode (payload `0x`) is a valid
result that is decoded, cached and returned rather than treated as an
error. -/
theorem claim8_getCode_cache :
    (∀ (rpc : Resolver.RpcOracle) (st : Resolver.CacheState) (addr : String) (bn : Nat)
      (c : Code),
      st.cache.lookup (Resolver.codeCacheKey addr bn) = some c →
      Resolver.getCode rpc st addr bn =
        (.ok c, ⟨(Resolver.codeCacheKey addr bn, c) ::
          st.cache.filter (fun p => p.1 != Resolver.codeCacheKey addr bn), st.netCalls⟩)) ∧
    (∀ (rpc : Resolver.RpcOracle) (st : Resolver.CacheState) (addr : String) (bn : Nat)
      (c : Code) (st2 : Resolver.CacheState),
      Resolver.getCode rpc st addr bn = (.ok c, st2) →
      ∃ st3, Resolver.getCode rpc st2 addr bn = (.ok c, st3) ∧
        st3.netCalls = st2.netCalls) ∧
    (∀ (rpc : Resolver.RpcOracle) (st : Resolver.CacheState) (addr : String) (bn : Nat),
      st.cache.lookup (Resolver.codeCacheKey addr bn) = none →
      rpc addr bn = .ok "0x" →
      ∃ st2, Resolver.getCode rpc st addr bn = (.ok ⟨addr, []⟩, st2) ∧
        st2.cache.lookup (Resolver.codeCacheKey addr bn) = some ⟨addr, []⟩ ∧
        st2.netCalls = st.netCalls + 1) := by
  refine ⟨?_, ?_, ?_⟩
  · intro rpc st addr bn c h
    unfold Resolver.getCode
    rw [lruGet_of_lookup_some _ _ _ h]
  · intro rpc st addr bn c st2 h
    have hl := getCode_caches rpc st addr bn c st2 h
    refine ⟨⟨(Resolver.codeCacheKey addr bn, c) ::
      st2.cache.filter (fun p => p.1 != Resolver.codeCacheKey addr bn), st2.netCalls⟩, ?_, rfl⟩
    unfold Resolver.getCode
    rw [lruGet_of_lookup_some _ _ _ hl]
  · intro rpc st addr bn h1 h2
    refine ⟨⟨Resolver.lruAdd st.cache (Resolver.codeCacheKey addr bn) ⟨addr, []⟩,
      st.netCalls + 1⟩, ?_, lookup_lruAdd_self _ _ _, rfl⟩
    unfold Resolver.getCode
    rw [lruGet_of_lookup_none _ _ h1, h2]
    rfl

/-- C8 witness: a fresh state and a transport that returns the empty-code
payload; the second part is then the cached repeat of the first call. -/
theorem claim8_witness :
    (emptyState.cache.lookup (Resolver.codeCacheKey "0xa" 1) = none ∧
      rpcEmpty "0xa" 1 = .ok "0x") ∧
    (∃ st2, Resolver.getCode rpcEmpty emptyState "0xa" 1 = (.ok ⟨"0xa", []⟩, st2) ∧
      st2.cache.lookup (Resolver.codeCacheKey "0xa" 1) = some ⟨"0xa", []⟩ ∧
      st2.netCalls = emptyState.netCalls + 1) :=
  ⟨⟨by rfl, by rfl⟩,
    claim8_getCode_cache.2.2 rpcEmpty emptyState "0xa" 1 (by rfl) (by rfl)⟩

/-- C1 counterexample.  A trace with a CALL at depth 1 whose resolved
target has non-empty code and whose next step stays at depth 1 (the call
did not enter a frame): the claim says the walker produces exactly the
caller's FrameResult and continues without error, but `analyzeSteps` of
the third iteration advances into a recursive frame without lookahead and
aborts with a depth-mismatch error. -/
theorem claim1_counterexample :
    A3.analyzeSteps demoOra false 7 demoCaller noEnterTrace =
      .error (.depthMismatch 1 2 1) := by rfl

/-- C1 amended: when the step after the CALL is at depth d+1, both the
recursion-based walker (`analyzeSteps`, third iteration) and the
lookahead walker (`analyzeSteps2`) produce a separate FrameResult for the
callee (address `0xd`) in addition to the caller's; when the next step
stays at depth d, the lookahead walker produces exactly one FrameResult
(the caller's) and continues without error, whereas `analyzeSteps` fails
with a depth mismatch (the counterexample). -/
theorem claim1_call_frame_scenarios :
    A3.analyzeSteps demoOra false 7 demoCaller enterTrace =
      .ok (3, [⟨7, "0xd", ⟨[2], 2⟩, 0⟩, ⟨7, "0xc", ⟨[1], 3⟩, 0⟩]) ∧
    A2.newTraceResult demoCaller 7 = some demoCallerStart ∧
    A2.analyzeSteps2 demoOra false 7 enterTrace 0 demoCallerStart false =
      .ok (3, [⟨7, "0xd", ⟨[2], 2⟩, 0⟩, ⟨7, "0xc", ⟨[3], 3⟩, 0⟩]) ∧
    A2.analyzeSteps2 demoOra false 7 noEnterTrace 0 demoCallerStart false =
      .ok (2, [⟨7, "0xc", ⟨[3], 3⟩, 0⟩]) :=
  ⟨by rfl, by rfl, by rfl, by rfl⟩

/-- C3: when code resolution fails for a call target, the error is
propagated for a non-failed trace (`codeResolution`), but for a failed
trace the guard `err != nil && !trace.Failed` falls through to
`len(code.code)` on the nil `*Code` returned with the error, and the walk
panics with a nil-pointer dereference instead of treating the target as
empty code and continuing. -/
theorem claim3_resolution_failure :
    A3.analyzeSteps errOra true 7 demoCaller noEnterTrace = .error .nilPointer ∧
    A3.analyzeSteps errOra false 7 demoCaller noEnterTrace = .error .codeResolution :=
  ⟨by rfl, by rfl⟩

theorem count_replicate_zero (n s : Nat) : BitSet.Count ⟨List.replicate n 0, s⟩ = 0 := by
  unfold BitSet.Count
  simp [List.map_replicate, onesCount32_zero]

/-- C2 counterexample.  Processing a single EXTCODESIZE step whose target
has non-empty code: the separate target FrameResult is emitted with
size-query counter 1 and an all-zero accessor, but the caller's own
accessor is modified by the step — it starts all-zero and ends with the
step's pc bit set (count 1). -/
theorem claim2_counterexample :
    A1.analyzeSteps extOra false extCaller [stepExt] =
      .ok (1, [⟨"0xt", ⟨[0], 3⟩, 1, 0, 0⟩, ⟨"0xc", ⟨[1], 2⟩, 0, 0, 0⟩]) ∧
    (A1.newTraceResult extCaller).map (fun r => r.bits.Count) = some 0 ∧
    BitSet.Count ⟨[1], 2⟩ = 1 :=
  ⟨by rfl, by rfl, by decide⟩

/-- C2 amended: for every EXTCODESIZE step in a non-skip frame whose
stack-top address resolves to non-empty code, the walker emits exactly
one separate FrameResult for the target with size-query counter 1, zero
copy and hash counters, and an all-zero accessor sized to the target's
code; the caller's result is left untouched by the EXTCODESIZE handling
itself — the only change to the caller's accessor from processing the
step is the standard marking of the step's own pc. -/
theorem claim2_extcodesize_emits (ora : CodeOracle) (failed : Bool) (step : TraceStep)
    (result : A1.TraceResult) (sa : String) (c : Code) (b1 : BitSet)
    (hop : step.op = "EXTCODESIZE")
    (htop : stackTop step.stack = .ok sa)
    (hora : ora sa = .ok c)
    (hne : c.code ≠ [])
    (hmax : c.code.length ≤ maxContractBytes)
    (hset : result.bits.Set step.pc = some b1) :
    ∃ er, A1.processStep ora failed step { result with bits := b1 } =
        .ok ({ result with bits := b1 }, [er]) ∧
      er.addr = c.addr ∧ er.codeSizeCount = 1 ∧ er.codeCopyCount = 0 ∧ er.codeHashCount = 0 ∧
      er.bits.Count = 0 ∧ er.bits.size = c.code.length ∧
      b1 = result.bits.setRaw step.pc ∧ b1.size = result.bits.size := by
  have hlen : c.code.length ≠ 0 := by simpa using hne
  have hb1 : b1 = result.bits.setRaw step.pc := by
    unfold BitSet.Set at hset
    by_cases hge : step.pc ≥ result.bits.size
    · simp [hge] at hset
    · simp [hge] at hset
      exact hset.symm
  refine ⟨⟨c.addr,
    ⟨List.replicate ((c.code.length + BitSet.chunkSize - 1) / BitSet.chunkSize) 0,
      c.code.length⟩, 1, 0, 0⟩, ?_, rfl, rfl, rfl, rfl, count_replicate_zero _ _, rfl, hb1, ?_⟩
  · unfold A1.processStep
    rw [hop]
    rw [if_neg (by decide), if_neg (by decide), if_neg (by decide), if_neg (by decide),
      if_pos rfl]
    simp only [htop]
    simp only [hora]
    rw [if_pos hlen]
    unfold A1.newTraceResult BitSet.NewBitSet
    rw [if_neg hlen, if_neg (by omega)]
    rfl
  · rw [hb1, setRaw_size]

/-- C2 witness: the amended statement applied to the concrete
EXTCODESIZE scenario (caller of two bytes, target of three bytes). -/
theorem claim2_witness :
    (stepExt.op = "EXTCODESIZE" ∧
      stackTop stepExt.stack = .ok "0xt" ∧
      extOra "0xt" = .ok ⟨"0xt", [1, 2, 3]⟩ ∧
      ([1, 2, 3] : List Nat) ≠ [] ∧
      ([1, 2, 3] : List Nat).length ≤ maxContractBytes ∧
      BitSet.Set ⟨[0], 2⟩ 0 = some ⟨[1], 2⟩) ∧
    ∃ er, A1.processStep extOra false stepExt ⟨"0xc", ⟨[1], 2⟩, 0, 0, 0⟩ =
        .ok ((⟨"0xc", ⟨[1], 2⟩, 0, 0, 0⟩ : A1.TraceResult), [er]) ∧
      er.addr = "0xt" ∧ er.codeSizeCount = 1 ∧ er.codeCopyCount = 0 ∧ er.codeHashCount = 0 ∧
      er.bits.Count = 0 ∧ er.bits.size = ([1, 2, 3] : List Nat).length ∧
      (⟨[1], 2⟩ : BitSet) = BitSet.setRaw ⟨[0], 2⟩ 0 ∧
      (⟨[1], 2⟩ : BitSet).size = (⟨[0], 2⟩ : BitSet).size := by
  refine ⟨⟨rfl, rfl, rfl, by decide, by decide, by decide⟩, ?_⟩
  exact claim2_extcodesize_emits extOra false stepExt
    ⟨"0xc", ⟨[0], 2⟩, 0, 0, 0⟩ "0xt" ⟨"0xt", [1, 2, 3]⟩ ⟨[1], 2⟩
    rfl rfl rfl (by decide) (by decide) (by decide)
